import Mathlib

/-!
Verification of the kolony-backend command lifecycle and lease-claim engine.

The definitions below are a shallow embedding of the TypeScript/SQL source:
  * `CommandStatus`, `canTransition`   from src/lib/lifecycle.ts and src/types.ts
  * `Command`, `CommandResult`, `Event`  from the supabase schema (commands,
    command_results, events tables); timestamps are modelled as integers
    (seconds), uuids as naturals, JSON payload columns are not modelled
    because no verified property reads them
  * `claim_agent_commands`             from the SQL stored procedure in the
    command-claim-leases migration
  * `postProgress`, `postResult`, `postFail`, `postRelease`,
    `postExtendLease`, `claimRoute`    from src/routes/mcp.ts
  * `cancelCommand`                    from src/routes/operators.ts
  * `RealtimeHub`                      from src/lib/realtime-hub.ts
-/

/-- Command status enum, from `command_status` in the schema and
`CommandStatus` in src/types.ts. -/
inductive CommandStatus where
  | draft
  | queued
  | dispatching
  | executing
  | completed
  | failed
  | cancelled
deriving DecidableEq, Repr, Fintype

/-- The transition table from src/lib/lifecycle.ts. -/
def transitions : CommandStatus → List CommandStatus
  | .draft => [.queued]
  | .queued => [.dispatching, .cancelled, .failed]
  | .dispatching => [.executing, .failed, .cancelled]
  | .executing => [.executing, .completed, .failed, .cancelled]
  | .completed => []
  | .failed => []
  | .cancelled => []

/-- `canTransition` from src/lib/lifecycle.ts: the special same-state case
for `executing`, then membership in the transition table. -/
def canTransition (fromStatus toStatus : CommandStatus) : Bool :=
  if fromStatus = toStatus ∧ toStatus = .executing then true
  else (transitions fromStatus).contains toStatus

/-- A row of the `commands` table (columns the verified operations touch).
Timestamps are integer instants; uuids are naturals. -/
structure Command where
  id : Nat
  agent_id : Nat
  priority : Int
  created_at : Int
  status : CommandStatus
  claimed_by_agent_id : Option Nat
  claimed_at : Option Int
  lease_expires_at : Option Int
  attempt_count : Int
  last_claim_error : Option String
  started_at : Option Int
  completed_at : Option Int
  error_message : Option String
  updated_at : Int
deriving DecidableEq, Repr

/-- A row of the `command_results` table (metadata JSON omitted). -/
structure CommandResult where
  command_id : Nat
  chunk_index : Int
  output : String
  is_final : Bool
deriving DecidableEq, Repr

/-- A row of the `events` table, as written by `createEvent` in
src/lib/events.ts (payload JSON omitted). -/
structure Event where
  event_type : String
  level : String
  agent_id : Option Nat
  command_id : Option Nat
deriving DecidableEq, Repr

/-- The relational store the routes mutate. -/
structure Store where
  commands : List Command
  command_results : List CommandResult
  events : List Event
deriving DecidableEq, Repr

/-- `v_limit` in `claim_agent_commands`:
`greatest(1, least(coalesce(p_max_claims, 1), 10))`. -/
def v_limit (p_max_claims : Option Int) : Int :=
  max 1 (min (p_max_claims.getD 1) 10)

/-- `v_lease` in `claim_agent_commands`:
`greatest(15, least(coalesce(p_lease_seconds, 60), 300))`. -/
def v_lease (p_lease_seconds : Option Int) : Int :=
  max 15 (min (p_lease_seconds.getD 60) 300)

/-- The WHERE clause of the candidate selection in `claim_agent_commands`:
`agent_id = p_agent_id and status = 'queued' and
(lease_expires_at is null or lease_expires_at <= v_now)`. -/
def claimCandidate (v_now : Int) (p_agent_id : Nat) (c : Command) : Bool :=
  decide (c.agent_id = p_agent_id) && decide (c.status = .queued) &&
    (match c.lease_expires_at with
     | none => true
     | some t => decide (t ≤ v_now))

/-- The ORDER BY of the candidate selection: `priority desc, created_at asc`. -/
def claimOrderRel (a b : Command) : Prop :=
  b.priority < a.priority ∨ (a.priority = b.priority ∧ a.created_at ≤ b.created_at)

instance : DecidableRel claimOrderRel := fun a b => by
  unfold claimOrderRel; infer_instance

instance : IsTotal Command claimOrderRel where
  total a b := by
    unfold claimOrderRel
    rcases lt_trichotomy a.priority b.priority with h | h | h
    · exact Or.inr (Or.inl h)
    · rcases le_total a.created_at b.created_at with h2 | h2
      · exact Or.inl (Or.inr ⟨h, h2⟩)
      · exact Or.inr (Or.inr ⟨h.symm, h2⟩)
    · exact Or.inl (Or.inl h)

instance : IsTrans Command claimOrderRel where
  trans a b c hab hbc := by
    unfold claimOrderRel at *
    rcases hab with h1 | ⟨h1, h1'⟩
    · rcases hbc with h2 | ⟨h2, _⟩
      · exact Or.inl (h2.trans h1)
      · exact Or.inl (h2 ▸ h1)
    · rcases hbc with h2 | ⟨h2, h2'⟩
      · exact Or.inl (h1 ▸ h2)
      · exact Or.inr ⟨h1.trans h2, h1'.trans h2'⟩

/-- The SET list of the UPDATE in `claim_agent_commands`, applied to one
selected row. -/
def applyClaim (v_now v_lease_val : Int) (p_agent_id : Nat) (c : Command) : Command :=
  { c with
    status := .dispatching
    claimed_by_agent_id := some p_agent_id
    claimed_at := some v_now
    lease_expires_at := some (v_now + v_lease_val)
    attempt_count := c.attempt_count + 1
    updated_at := v_now }

/-- The stored procedure `claim_agent_commands` from the migration: select
up to `v_limit` commands matching `claimCandidate`, ordered by priority
descending then creation ascending, flip each to dispatching with the claim
fields set, and return the updated rows.  Result: (new commands table,
returned rows). -/
def claim_agent_commands (cmds : List Command) (p_agent_id : Nat)
    (p_max_claims p_lease_seconds : Option Int) (v_now : Int) :
    List Command × List Command :=
  let lim := v_limit p_max_claims
  let lease := v_lease p_lease_seconds
  let candidates :=
    (((cmds.filter (claimCandidate v_now p_agent_id)).insertionSort claimOrderRel).take
      lim.toNat)
  let candIds := candidates.map (·.id)
  let newCmds := cmds.map (fun c =>
    if candIds.contains c.id then applyClaim v_now lease p_agent_id c else c)
  (newCmds, candidates.map (applyClaim v_now lease p_agent_id))

/-- Fetch-by-id used by every `:id` route handler:
`from('commands').select(...).eq('id', id).maybeSingle()`. -/
def getCmd (cmds : List Command) (id : Nat) : Option Command :=
  cmds.find? (fun c => c.id = id)

/-- `from('commands').update(patch).eq('id', id)`: apply the patch to every
row whose id matches. -/
def updateCommands (cmds : List Command) (id : Nat) (patch : Command → Command) :
    List Command :=
  cmds.map (fun c => if c.id = id then patch c else c)

/-- `createEvent` from src/lib/events.ts: insert one row into `events`. -/
def addEvent (db : Store) (event_type level : String)
    (agent_id command_id : Option Nat) : Store :=
  { db with events := db.events ++ [⟨event_type, level, agent_id, command_id⟩] }

/-- The update record of POST /commands/:id/progress: the new status, plus
started_at stamped when entering executing and the fetched status was not
already executing. -/
def progressPatch (nextStatus currentStatus : CommandStatus) (now : Int)
    (c : Command) : Command :=
  if nextStatus = .executing ∧ currentStatus ≠ .executing then
    { c with status := nextStatus, started_at := some now }
  else { c with status := nextStatus }

/-- The finalize update record of POST /commands/:id/result. -/
def completePatch (now : Int) (c : Command) : Command :=
  { c with status := .completed, completed_at := some now }

/-- The update record of POST /commands/:id/fail. -/
def failPatch (msg : String) (now : Int) (c : Command) : Command :=
  { c with status := .failed, error_message := some msg, completed_at := some now }

/-- The update record of POST /commands/:id/release. -/
def releasePatch (reason : Option String) (c : Command) : Command :=
  { c with status := .queued, claimed_by_agent_id := none, claimed_at := none,
           lease_expires_at := none, started_at := none, last_claim_error := reason }

/-- The update record of POST /commands/:id/lease/extend. -/
def extendPatch (leaseExpiresAt : Int) (c : Command) : Command :=
  { c with lease_expires_at := some leaseExpiresAt }

/-- The update record of POST /commands/:id/cancel. -/
def cancelPatch (now : Int) (c : Command) : Command :=
  { c with status := .cancelled, completed_at := some now }

/-- HTTP outcomes the modelled handlers distinguish. -/
inductive HttpResult where
  | ok
  | badRequest
  | forbidden
  | notFound
  | conflict
deriving DecidableEq, Repr

/-- POST /commands/:id/progress from src/routes/mcp.ts: schema restricts the
requested status to dispatching or executing; then fetch, 404, ownership 403,
transition check 409, patch status (stamping started_at when entering
executing from a non-executing state), record the event. -/
def postProgress (db : Store) (agentId id : Nat) (nextStatus : CommandStatus)
    (now : Int) : Store × HttpResult :=
  if ¬(nextStatus = .dispatching ∨ nextStatus = .executing) then (db, .badRequest)
  else
    match getCmd db.commands id with
    | none => (db, .notFound)
    | some command =>
      if command.agent_id ≠ agentId then (db, .forbidden)
      else if ¬ canTransition command.status nextStatus then (db, .conflict)
      else
        let cmds1 := updateCommands db.commands id
          (progressPatch nextStatus command.status now)
        let db1 := { db with commands := cmds1 }
        (addEvent db1 "command.progress" "info" (some agentId) (some id), .ok)

/-- POST /commands/:id/result from src/routes/mcp.ts: schema checks
(chunkIndex nonnegative integer, output nonempty); fetch, 404, ownership 403;
insert the chunk row unconditionally; when isFinal, check the transition to
completed (409 on failure, with the chunk already inserted) and otherwise
flip the command to completed stamping completed_at; record the event. -/
def postResult (db : Store) (agentId id : Nat) (chunkIndex : Int)
    (output : String) (isFinal : Bool) (now : Int) : Store × HttpResult :=
  if ¬(0 ≤ chunkIndex ∧ output ≠ "") then (db, .badRequest)
  else
    match getCmd db.commands id with
    | none => (db, .notFound)
    | some command =>
      if command.agent_id ≠ agentId then (db, .forbidden)
      else
        let db1 := { db with command_results :=
          db.command_results ++ [⟨id, chunkIndex, output, isFinal⟩] }
        if isFinal then
          if ¬ canTransition command.status .completed then (db1, .conflict)
          else
            let cmds2 := updateCommands db1.commands id (completePatch now)
            let db2 := { db1 with commands := cmds2 }
            (addEvent db2 "command.completed" "info" (some agentId) (some id), .ok)
        else
          (addEvent db1 "command.result_chunk" "info" (some agentId) (some id), .ok)

/-- POST /commands/:id/fail from src/routes/mcp.ts: schema check (nonempty
errorMessage); fetch, 404, ownership 403, transition-to-failed check 409;
set status failed with error_message and completed_at; record the event. -/
def postFail (db : Store) (agentId id : Nat) (errorMessage : String)
    (now : Int) : Store × HttpResult :=
  if errorMessage = "" then (db, .badRequest)
  else
    match getCmd db.commands id with
    | none => (db, .notFound)
    | some command =>
      if command.agent_id ≠ agentId then (db, .forbidden)
      else if ¬ canTransition command.status .failed then (db, .conflict)
      else
        let cmds1 := updateCommands db.commands id (failPatch errorMessage now)
        let db1 := { db with commands := cmds1 }
        (addEvent db1 "command.failed" "error" (some agentId) (some id), .ok)

/-- POST /commands/:id/release from src/routes/mcp.ts: schema check (reason
at most 500 chars); fetch, 404, ownership 403, 409 unless currently claimed
by the caller with status dispatching or executing; reset to queued clearing
every claim field and recording the reason; record the event. -/
def postRelease (db : Store) (agentId id : Nat) (reason : Option String) :
    Store × HttpResult :=
  if ¬((reason.getD "").length ≤ 500) then (db, .badRequest)
  else
    match getCmd db.commands id with
    | none => (db, .notFound)
    | some command =>
      if command.agent_id ≠ agentId then (db, .forbidden)
      else if command.claimed_by_agent_id ≠ some agentId then (db, .conflict)
      else if ¬(command.status = .dispatching ∨ command.status = .executing) then
        (db, .conflict)
      else
        let cmds1 := updateCommands db.commands id (releasePatch reason)
        let db1 := { db with commands := cmds1 }
        (addEvent db1 "command.released" "info" (some agentId) (some id), .ok)

/-- POST /commands/:id/lease/extend from src/routes/mcp.ts: schema check
(leaseSeconds in 15..300); fetch, 404, ownership 403, 409 unless currently
claimed by the caller with status dispatching or executing; set
lease_expires_at to now plus leaseSeconds; record the event. -/
def postExtendLease (db : Store) (agentId id : Nat) (leaseSeconds : Int)
    (now : Int) : Store × HttpResult :=
  if ¬(15 ≤ leaseSeconds ∧ leaseSeconds ≤ 300) then (db, .badRequest)
  else
    match getCmd db.commands id with
    | none => (db, .notFound)
    | some command =>
      if command.agent_id ≠ agentId then (db, .forbidden)
      else if command.claimed_by_agent_id ≠ some agentId then (db, .conflict)
      else if ¬(command.status = .dispatching ∨ command.status = .executing) then
        (db, .conflict)
      else
        let cmds1 := updateCommands db.commands id
          (extendPatch (now + leaseSeconds))
        let db1 := { db with commands := cmds1 }
        (addEvent db1 "command.lease_extended" "info" (some agentId) (some id), .ok)

/-- POST /commands/:id/cancel from src/routes/operators.ts: operator-initiated,
no agent-ownership check; fetch, 404, transition-to-cancelled check 409; set
status cancelled stamping completed_at; record the event. -/
def cancelCommand (db : Store) (id : Nat) (now : Int) : Store × HttpResult :=
  match getCmd db.commands id with
  | none => (db, .notFound)
  | some current =>
    if ¬ canTransition current.status .cancelled then (db, .conflict)
    else
      let cmds1 := updateCommands db.commands id (cancelPatch now)
      let db1 := { db with commands := cmds1 }
      (addEvent db1 "command.cancelled" "info" (some current.agent_id) (some id), .ok)

/-- One successful iteration of POST /commands/claim from src/routes/mcp.ts:
run the stored procedure and record one command.claimed event per claimed
item.  Returns the updated store and the claimed rows. -/
def claimRoute (db : Store) (agentId : Nat) (maxClaims leaseSeconds : Option Int)
    (now : Int) : Store × List Command :=
  let r := claim_agent_commands db.commands agentId maxClaims leaseSeconds now
  ({ db with
      commands := r.1
      events := db.events ++ r.2.map (fun item =>
        ⟨"command.claimed", "info", some agentId, some item.id⟩) },
    r.2)

/-- One claim call of a run: the body parameters plus the instant at which
the call executes. -/
structure ClaimCall where
  maxClaims : Int
  leaseSeconds : Int
  now : Int
deriving DecidableEq, Repr

/-- A sequence of claim calls by one agent, each executing atomically on the
state left by the previous one; returns the final commands table and the
list of claimed-id batches, one batch per call. -/
def runClaims (agentId : Nat) : List ClaimCall → List Command →
    List Command × List (List Nat)
  | [], cmds => (cmds, [])
  | call :: calls, cmds =>
    let r := claim_agent_commands cmds agentId (some call.maxClaims)
      (some call.leaseSeconds) call.now
    let t := runClaims agentId calls r.1
    (t.1, r.2.map (fun c => c.id) :: t.2)

/-- The in-memory pub/sub registry from src/lib/realtime-hub.ts.  Subscriber
handles (the fresh client objects of the source) are naturals drawn from a
counter; the topic map is an association list in insertion order, matching
JS Map iteration. -/
structure RealtimeHub where
  clientsByCommand : List (String × List Nat)
  nextHandle : Nat
deriving DecidableEq, Repr

/-- `this.clientsByCommand.get(commandId)`. -/
def hubLookup (hub : RealtimeHub) (commandId : String) : Option (List Nat) :=
  (hub.clientsByCommand.find? (fun p => p.1 = commandId)).map Prod.snd

/-- `this.clientsByCommand.set(commandId, clients)`: replace the entry in
place when the key exists (JS Map keys are unique), append otherwise. -/
def setTopic : List (String × List Nat) → String → List Nat →
    List (String × List Nat)
  | [], commandId, clients => [(commandId, clients)]
  | p :: l, commandId, clients =>
    if p.1 = commandId then (p.1, clients) :: l
    else p :: setTopic l commandId clients

/-- `RealtimeHub.subscribe`: add a fresh client handle to the topic's set and
return it (the source returns a closure over the client; the handle plays
that role). -/
def RealtimeHub.subscribe (hub : RealtimeHub) (commandId : String) :
    RealtimeHub × Nat :=
  let client := hub.nextHandle
  let existing := (hubLookup hub commandId).getD []
  ({ clientsByCommand := setTopic hub.clientsByCommand commandId (existing ++ [client])
     nextHandle := client + 1 }, client)

/-- The closure returned by `subscribe`: remove the client from the topic's
set, and drop the topic entry entirely when the set becomes empty. -/
def RealtimeHub.unsub (hub : RealtimeHub) (commandId : String) (client : Nat) :
    RealtimeHub :=
  match hubLookup hub commandId with
  | none => hub
  | some clients =>
    let clients2 := clients.erase client
    if clients2 = [] then
      { hub with clientsByCommand :=
          hub.clientsByCommand.filter (fun p => ¬(p.1 = commandId)) }
    else
      { hub with clientsByCommand := setTopic hub.clientsByCommand commandId clients2 }

/-- The SSE frame written by `publish` (payload already serialized). -/
def sseFrame (payload : String) : String :=
  "event: update" ++ "\n" ++ "data: " ++ payload ++ "\n\n"

/-- `RealtimeHub.publish`: write the frame to every client currently
subscribed to the topic; nothing when the topic has no entry.  Returns the
list of performed writes (client handle, written data). -/
def RealtimeHub.publish (hub : RealtimeHub) (commandId : String)
    (payload : String) : List (Nat × String) :=
  match hubLookup hub commandId with
  | none => []
  | some clients => clients.map (fun c => (c, sseFrame payload))

/-- Well-formedness of the hub registry: topic keys are distinct, every
stored client set is a nonempty duplicate-free list, and every handle is
below the freshness counter. -/
def RealtimeHub.WF (hub : RealtimeHub) : Prop :=
  (hub.clientsByCommand.map Prod.fst).Nodup ∧
  ∀ p ∈ hub.clientsByCommand,
    p.2 ≠ [] ∧ p.2.Nodup ∧ ∀ x ∈ p.2, x < hub.nextHandle

instance (hub : RealtimeHub) : Decidable hub.WF := by
  unfold RealtimeHub.WF; infer_instance

/-- All patches applied by the handlers keep the primary key, so a fetch of
the patched id returns the patched row. -/
theorem getCmd_update_self (cmds : List Command) (id : Nat)
    (patch : Command → Command) (hid : ∀ c, (patch c).id = c.id) :
    getCmd (updateCommands cmds id patch) id = (getCmd cmds id).map patch := by
  induction cmds with
  | nil => rfl
  | cons c cs ih =>
    by_cases h : c.id = id
    · rw [getCmd, updateCommands, List.map_cons, if_pos h,
        List.find?_cons_of_pos _ (by simp [hid c, h]), getCmd,
        List.find?_cons_of_pos _ (by simp [h])]
      rfl
    · rw [getCmd, updateCommands, List.map_cons, if_neg h,
        List.find?_cons_of_neg _ (by simp [h]), getCmd,
        List.find?_cons_of_neg _ (by simp [h])]
      exact ih

/-- Applied form of `getCmd_update_self`: fetching the patched id after the
update returns the patched row. -/
theorem getCmd_update_found {cmds : List Command} {id : Nat} {c : Command}
    (patch : Command → Command) (hid : ∀ x, (patch x).id = x.id)
    (h : getCmd cmds id = some c) :
    getCmd (updateCommands cmds id patch) id = some (patch c) := by
  rw [getCmd_update_self cmds id patch hid, h]
  rfl

/-- A queued command used to instantiate general theorems. -/
def demoQueued : Command :=
  { id := 1, agent_id := 7, priority := 5, created_at := 0, status := .queued,
    claimed_by_agent_id := none, claimed_at := none, lease_expires_at := none,
    attempt_count := 0, last_claim_error := none, started_at := none,
    completed_at := none, error_message := none, updated_at := 0 }

/-- An executing command claimed by agent 1, used to instantiate general
theorems. -/
def demoExecuting : Command :=
  { id := 2, agent_id := 1, priority := 5, created_at := 0, status := .executing,
    claimed_by_agent_id := some 1, claimed_at := some 0, lease_expires_at := some 60,
    attempt_count := 1, last_claim_error := none, started_at := some 3,
    completed_at := none, error_message := none, updated_at := 3 }

/-- A completed command targeted at agent 1, used to instantiate general
theorems. -/
def demoCompleted : Command :=
  { id := 3, agent_id := 1, priority := 5, created_at := 0, status := .completed,
    claimed_by_agent_id := some 1, claimed_at := some 0, lease_expires_at := some 60,
    attempt_count := 1, last_claim_error := none, started_at := some 3,
    completed_at := some 9, error_message := none, updated_at := 9 }

/-- Claim C2: canTransition returns true exactly for the pairs of the
spec's transition table (draft to queued; queued to dispatching, cancelled
or failed; dispatching to executing, failed or cancelled; executing to
executing, completed, failed or cancelled), and false for every other
pair, in particular every same-state pair other than executing-executing;
as a Lean function it is pure by construction. -/
theorem canTransition_spec_table :
    (∀ f t : CommandStatus,
      canTransition f t = true ↔
        (f, t) ∈ ([(.draft, .queued),
          (.queued, .dispatching), (.queued, .cancelled), (.queued, .failed),
          (.dispatching, .executing), (.dispatching, .failed), (.dispatching, .cancelled),
          (.executing, .executing), (.executing, .completed), (.executing, .failed),
          (.executing, .cancelled)] : List (CommandStatus × CommandStatus))) ∧
    (∀ s : CommandStatus, s ≠ .executing → canTransition s s = false) := by
  constructor
  · decide
  · decide

/-- Claim C1 (refuted by the code): a command for agent 7 is claimed at
instant 0 with leaseSeconds 15, so its lease expires at instant 15 and it is
never released, completed, failed or cancelled.  A claim call by the owning
agent before expiry (instant 10) returns nothing — but so does a claim call
long after expiry (instant 100): the stored procedure only selects rows with
status queued, and the claimed command is dispatching, so the expired lease
is never scavenged by a later claim, contradicting the claim. -/
theorem lease_scavenging_never_reclaims :
    (claim_agent_commands [demoQueued] 7 (some 1) (some 15) 0).2.map
      (fun c => c.id) = [1] ∧
    (getCmd (claim_agent_commands [demoQueued] 7 (some 1) (some 15) 0).1 1).map
      (fun c => (c.status, c.lease_expires_at)) =
        some (.dispatching, some 15) ∧
    (claim_agent_commands (claim_agent_commands [demoQueued] 7 (some 1) (some 15) 0).1
      7 (some 1) (some 15) 10).2 = [] ∧
    (claim_agent_commands (claim_agent_commands [demoQueued] 7 (some 1) (some 15) 0).1
      7 (some 1) (some 15) 100).2 = [] := by
  decide

/-- Claim C3: appendResult with isFinal true on a command whose status does
not allow a transition to completed inserts the chunk row, then answers 409
Conflict, leaving the commands table (hence the command's status) and the
events log untouched: the chunk insert precedes the finalize check and the
rejected finalize does not roll it back. -/
theorem append_result_persists_chunk_on_conflict (db : Store) (a id : Nat)
    (c : Command) (hget : getCmd db.commands id = some c) (hown : c.agent_id = a)
    (htrans : canTransition c.status .completed = false)
    (ci : Int) (hci : 0 ≤ ci) (out : String) (hout : out ≠ "") (t : Int) :
    postResult db a id ci out true t =
      ({ db with command_results := db.command_results ++ [⟨id, ci, out, true⟩] },
        .conflict) := by
  unfold postResult
  simp [hget, hci, hout, hown, htrans]

/-- Witness for C3 at a concrete store: one completed command, agent 1. -/
theorem append_result_persists_chunk_on_conflict_witness :
    postResult ⟨[demoCompleted], [], []⟩ 1 3 0 "x" true 5 =
      ({ commands := [demoCompleted],
         command_results := [⟨3, 0, "x", true⟩], events := [] }, .conflict) :=
  append_result_persists_chunk_on_conflict ⟨[demoCompleted], [], []⟩ 1 3
    demoCompleted (by decide) (by decide) (by decide) 0 (by decide) "x"
    (by decide) 5

/-- Claim C6: progress, result, fail, release and lease/extend on an
existing command owned by a different agent all answer 403 Forbidden and
return the store exactly as it was: no command mutated, no result row
inserted, no event recorded. -/
theorem ownership_mismatch_forbidden (db : Store) (a id : Nat) (c : Command)
    (hget : getCmd db.commands id = some c) (hown : c.agent_id ≠ a)
    (ns : CommandStatus) (hns : ns = .dispatching ∨ ns = .executing)
    (ci : Int) (hci : 0 ≤ ci) (out : String) (hout : out ≠ "") (isFinal : Bool)
    (msg : String) (hmsg : msg ≠ "") (reason : Option String)
    (hreason : (reason.getD "").length ≤ 500)
    (ls : Int) (hls : 15 ≤ ls ∧ ls ≤ 300) (t : Int) :
    postProgress db a id ns t = (db, .forbidden) ∧
    postResult db a id ci out isFinal t = (db, .forbidden) ∧
    postFail db a id msg t = (db, .forbidden) ∧
    postRelease db a id reason = (db, .forbidden) ∧
    postExtendLease db a id ls t = (db, .forbidden) := by
  unfold postProgress postResult postFail postRelease postExtendLease
  rcases hns with hns | hns <;>
    simp [hget, hown, hns, hci, hout, hmsg, hreason, hls]

/-- Witness for C6 at a concrete store: the executing command belongs to
agent 1 and agent 9 calls all five operations. -/
theorem ownership_mismatch_forbidden_witness :
    postProgress ⟨[demoExecuting], [], []⟩ 9 2 .executing 4 =
      (⟨[demoExecuting], [], []⟩, .forbidden) ∧
    postResult ⟨[demoExecuting], [], []⟩ 9 2 0 "x" true 4 =
      (⟨[demoExecuting], [], []⟩, .forbidden) ∧
    postFail ⟨[demoExecuting], [], []⟩ 9 2 "e" 4 =
      (⟨[demoExecuting], [], []⟩, .forbidden) ∧
    postRelease ⟨[demoExecuting], [], []⟩ 9 2 (some "r") =
      (⟨[demoExecuting], [], []⟩, .forbidden) ∧
    postExtendLease ⟨[demoExecuting], [], []⟩ 9 2 30 4 =
      (⟨[demoExecuting], [], []⟩, .forbidden) :=
  ownership_mismatch_forbidden ⟨[demoExecuting], [], []⟩ 9 2 demoExecuting
    (by decide) (by decide) .executing (Or.inr rfl) 0 (by decide) "x"
    (by decide) true "e" (by decide) (some "r") (by decide) 30
    (by decide) 4

/-- Claim C7 (refuted by the code): fail on an executing command claimed by
agent 1 succeeds, moves the command to failed — out of
dispatching/executing — yet leaves claimed_by_agent_id = some 1, so the
claimed invariant does not hold and fail does not leave the field null. -/
theorem claimed_by_survives_fail_counterexample :
    (postFail ⟨[demoExecuting], [], []⟩ 1 2 "e" 9).2 = .ok ∧
    (getCmd (postFail ⟨[demoExecuting], [], []⟩ 1 2 "e" 9).1.commands 2).map
      (fun c => (c.status, c.claimed_by_agent_id)) =
        some (.failed, some 1) := by
  decide

/-- Claim C7 as amended: of the operations that move a command out of
dispatching/executing, only release clears claimed_by_agent_id (returning
the command to queued with all claim fields nulled); fail, final-result
completion and cancel set their terminal status but leave
claimed_by_agent_id exactly as it was, so a terminal command may retain a
non-null claimed_by_agent_id. -/
theorem claimed_by_cleared_only_by_release (db : Store) (a id : Nat)
    (c : Command) (hget : getCmd db.commands id = some c)
    (msg out : String) (reason : Option String) (ci t : Int) :
    ((postRelease db a id reason).2 = .ok →
      getCmd (postRelease db a id reason).1.commands id =
        some (releasePatch reason c) ∧ (releasePatch reason c).claimed_by_agent_id = none) ∧
    ((postFail db a id msg t).2 = .ok →
      getCmd (postFail db a id msg t).1.commands id =
        some (failPatch msg t c) ∧
        (failPatch msg t c).claimed_by_agent_id = c.claimed_by_agent_id) ∧
    ((postResult db a id ci out true t).2 = .ok →
      getCmd (postResult db a id ci out true t).1.commands id =
        some (completePatch t c) ∧
        (completePatch t c).claimed_by_agent_id = c.claimed_by_agent_id) ∧
    ((cancelCommand db id t).2 = .ok →
      getCmd (cancelCommand db id t).1.commands id =
        some (cancelPatch t c) ∧
        (cancelPatch t c).claimed_by_agent_id = c.claimed_by_agent_id) := by
  refine ⟨?_, ?_, ?_, ?_⟩
  · intro hok
    unfold postRelease at hok ⊢
    by_cases h0 : (reason.getD "").length ≤ 500
    · rw [if_neg (not_not_intro h0)] at hok ⊢
      simp only [hget] at hok ⊢
      by_cases h1 : c.agent_id ≠ a
      · rw [if_pos h1] at hok; simp at hok
      · rw [if_neg h1] at hok ⊢
        by_cases h2 : c.claimed_by_agent_id ≠ some a
        · rw [if_pos h2] at hok; simp at hok
        · rw [if_neg h2] at hok ⊢
          by_cases h3 : c.status = .dispatching ∨ c.status = .executing
          · rw [if_neg (not_not_intro h3)]
            exact ⟨getCmd_update_found (releasePatch reason) (fun x => rfl) hget, rfl⟩
          · rw [if_pos h3] at hok; simp at hok
    · rw [if_pos h0] at hok; simp at hok
  · intro hok
    unfold postFail at hok ⊢
    by_cases h0 : msg = ""
    · rw [if_pos h0] at hok; simp at hok
    · rw [if_neg h0] at hok ⊢
      simp only [hget] at hok ⊢
      by_cases h1 : c.agent_id ≠ a
      · rw [if_pos h1] at hok; simp at hok
      · rw [if_neg h1] at hok ⊢
        by_cases h2 : canTransition c.status .failed = true
        · rw [if_neg (not_not_intro h2)]
          exact ⟨getCmd_update_found (failPatch msg t) (fun x => rfl) hget, rfl⟩
        · rw [if_pos h2] at hok; simp at hok
  · intro hok
    unfold postResult at hok ⊢
    by_cases h0 : 0 ≤ ci ∧ out ≠ ""
    · rw [if_neg (not_not_intro h0)] at hok ⊢
      simp only [hget] at hok ⊢
      by_cases h1 : c.agent_id ≠ a
      · rw [if_pos h1] at hok; simp at hok
      · rw [if_neg h1] at hok ⊢
        by_cases h2 : canTransition c.status .completed = true
        · rw [if_neg (not_not_intro h2)]
          exact ⟨getCmd_update_found (completePatch t) (fun x => rfl) hget, rfl⟩
        · rw [if_pos h2] at hok; simp at hok
    · rw [if_pos h0] at hok; simp at hok
  · intro hok
    unfold cancelCommand at hok ⊢
    simp only [hget] at hok ⊢
    by_cases h2 : canTransition c.status .cancelled = true
    · rw [if_neg (not_not_intro h2)]
      exact ⟨getCmd_update_found (cancelPatch t) (fun x => rfl) hget, rfl⟩
    · rw [if_pos h2] at hok; simp at hok

/-- Witness for the amended C7 at a concrete store: agent 1's executing
command, all four operations. -/
theorem claimed_by_cleared_only_by_release_witness :
    ((postRelease ⟨[demoExecuting], [], []⟩ 1 2 (some "r")).2 = .ok →
      getCmd (postRelease ⟨[demoExecuting], [], []⟩ 1 2 (some "r")).1.commands 2 =
        some (releasePatch (some "r") demoExecuting) ∧
        (releasePatch (some "r") demoExecuting).claimed_by_agent_id = none) ∧
    ((postFail ⟨[demoExecuting], [], []⟩ 1 2 "e" 9).2 = .ok →
      getCmd (postFail ⟨[demoExecuting], [], []⟩ 1 2 "e" 9).1.commands 2 =
        some (failPatch "e" 9 demoExecuting) ∧
        (failPatch "e" 9 demoExecuting).claimed_by_agent_id =
          demoExecuting.claimed_by_agent_id) ∧
    ((postResult ⟨[demoExecuting], [], []⟩ 1 2 0 "x" true 9).2 = .ok →
      getCmd (postResult ⟨[demoExecuting], [], []⟩ 1 2 0 "x" true 9).1.commands 2 =
        some (completePatch 9 demoExecuting) ∧
        (completePatch 9 demoExecuting).claimed_by_agent_id =
          demoExecuting.claimed_by_agent_id) ∧
    ((cancelCommand ⟨[demoExecuting], [], []⟩ 2 9).2 = .ok →
      getCmd (cancelCommand ⟨[demoExecuting], [], []⟩ 2 9).1.commands 2 =
        some (cancelPatch 9 demoExecuting) ∧
        (cancelPatch 9 demoExecuting).claimed_by_agent_id =
          demoExecuting.claimed_by_agent_id) :=
  claimed_by_cleared_only_by_release ⟨[demoExecuting], [], []⟩ 1 2 demoExecuting
    (by decide) "e" "x" (some "r") 0 9

/-- Looking a topic up right after `setTopic` on that topic yields exactly
the stored client list. -/
theorem find?_setTopic_self (l : List (String × List Nat)) (topic : String)
    (v : List Nat) :
    ((setTopic l topic v).find? (fun p => p.1 = topic)).map Prod.snd = some v := by
  induction l with
  | nil => simp [setTopic]
  | cons p l ih =>
    by_cases h : p.1 = topic
    · rw [setTopic, if_pos h, List.find?_cons_of_pos _ (by simp [h])]
      rfl
    · rw [setTopic, if_neg h, List.find?_cons_of_neg _ (by simp [h])]
      exact ih

/-- Removing a topic's entries makes later lookups of that topic miss. -/
theorem find?_filter_topic_none (l : List (String × List Nat)) (topic : String) :
    ((l.filter (fun p => ¬(p.1 = topic))).find? (fun p => p.1 = topic)) = none := by
  rw [List.find?_eq_none]
  intro x hx
  rcases List.mem_filter.mp hx with ⟨-, hpred⟩
  simpa using hpred

/-- A list stored for some topic in a well-formed hub has no duplicate
handles. -/
theorem hub_clients_nodup {hub : RealtimeHub} {topic : String} {cl : List Nat}
    (hwf : hub.WF) (hlk : hubLookup hub topic = some cl) : cl.Nodup := by
  unfold hubLookup at hlk
  cases hfind : hub.clientsByCommand.find? (fun p => p.1 = topic) with
  | none => rw [hfind] at hlk; cases hlk
  | some p =>
    rw [hfind] at hlk
    have hp := List.mem_of_find?_eq_some hfind
    have hnd := (hwf.2 p hp).2.1
    cases hlk
    exact hnd

/-- Counting a pair in the write list produced by publish reduces to
counting the handle among the clients. -/
theorem count_map_pair (clients : List Nat) (h : Nat) (s : String) :
    (clients.map (fun c => (c, s))).count (h, s) = clients.count h := by
  induction clients with
  | nil => rfl
  | cons c cs ih =>
    simp only [List.map_cons, List.count_cons, ih]
    by_cases hc : c = h
    · simp [hc]
    · simp [hc, Prod.ext_iff]

/-- Claim C9: publish writes the serialized payload exactly once to every
handle currently subscribed to the topic (count one for subscribed handles,
zero otherwise, and every performed write carries the frame of the given
payload); publishing to a topic with no entry performs no writes (and, being
a total function, cannot error); after a handle's unsubscribe closure runs,
that handle receives nothing from further publishes on the topic; and when
the last handle of a topic unsubscribes, the topic's entry disappears from
the registry. -/
theorem hub_publish_semantics (hub : RealtimeHub) (topic payload : String)
    (hwf : hub.WF) :
    (∀ w ∈ hub.publish topic payload, w.2 = sseFrame payload) ∧
    (∀ h : Nat,
      (hub.publish topic payload).count (h, sseFrame payload) =
        if h ∈ (hubLookup hub topic).getD [] then 1 else 0) ∧
    (hubLookup hub topic = none → hub.publish topic payload = []) ∧
    (∀ h : Nat, ∀ q d : String, (h, d) ∉ (hub.unsub topic h).publish topic q) ∧
    (∀ h : Nat, hubLookup hub topic = some [h] →
      hubLookup (hub.unsub topic h) topic = none) := by
  refine ⟨?_, ?_, ?_, ?_, ?_⟩
  · intro w hw
    unfold RealtimeHub.publish at hw
    cases hlk : hubLookup hub topic with
    | none => rw [hlk] at hw; cases hw
    | some clients =>
      rw [hlk] at hw
      rcases List.mem_map.mp hw with ⟨c, -, rfl⟩
      rfl
  · intro h
    cases hlk : hubLookup hub topic with
    | none => simp [RealtimeHub.publish, hlk]
    | some clients =>
      have hnd : clients.Nodup := hub_clients_nodup hwf hlk
      have hpub : hub.publish topic payload =
          clients.map (fun c => (c, sseFrame payload)) := by
        unfold RealtimeHub.publish
        rw [hlk]
      rw [hpub, count_map_pair clients h (sseFrame payload)]
      simp only [Option.getD_some]
      by_cases hm : h ∈ clients
      · rw [if_pos hm, List.count_eq_one_of_mem hnd hm]
      · rw [if_neg hm, List.count_eq_zero_of_not_mem hm]
  · intro hlk
    unfold RealtimeHub.publish
    rw [hlk]
  · intro h q d hmem
    cases hlk : hubLookup hub topic with
    | none =>
      have hu : hub.unsub topic h = hub := by
        unfold RealtimeHub.unsub
        rw [hlk]
      rw [hu] at hmem
      unfold RealtimeHub.publish at hmem
      rw [hlk] at hmem
      cases hmem
    | some clients =>
      have hnd : clients.Nodup := hub_clients_nodup hwf hlk
      by_cases herase : clients.erase h = []
      · have hu : hub.unsub topic h =
            { hub with clientsByCommand :=
                hub.clientsByCommand.filter (fun p => ¬(p.1 = topic)) } := by
          unfold RealtimeHub.unsub
          rw [hlk]
          simp [herase]
        rw [hu] at hmem
        have hlk2 : hubLookup
            { hub with clientsByCommand :=
                hub.clientsByCommand.filter (fun p => ¬(p.1 = topic)) } topic =
            none := by
          unfold hubLookup
          rw [find?_filter_topic_none]
          rfl
        unfold RealtimeHub.publish at hmem
        rw [hlk2] at hmem
        cases hmem
      · have hu : hub.unsub topic h =
            { hub with clientsByCommand :=
                setTopic hub.clientsByCommand topic (clients.erase h) } := by
          unfold RealtimeHub.unsub
          rw [hlk]
          simp [herase]
        rw [hu] at hmem
        have hlk2 : hubLookup
            { hub with clientsByCommand :=
                setTopic hub.clientsByCommand topic (clients.erase h) } topic =
            some (clients.erase h) := by
          unfold hubLookup
          exact find?_setTopic_self _ _ _
        unfold RealtimeHub.publish at hmem
        rw [hlk2] at hmem
        rcases List.mem_map.mp hmem with ⟨c, hc, heq⟩
        have hch : c = h := congrArg Prod.fst heq
        rw [hch] at hc
        exact absurd rfl (hnd.mem_erase_iff.mp hc).1
  · intro h hlk
    have hu : hub.unsub topic h =
        { hub with clientsByCommand :=
            hub.clientsByCommand.filter (fun p => ¬(p.1 = topic)) } := by
      unfold RealtimeHub.unsub
      rw [hlk]
      simp
    rw [hu]
    unfold hubLookup
    rw [find?_filter_topic_none]
    rfl

/-- A one-subscriber hub used to instantiate the hub theorem. -/
def demoHub : RealtimeHub := ⟨[("cmd-1", [0])], 1⟩

/-- Witness for C9 at a concrete hub with one subscriber on topic cmd-1. -/
theorem hub_publish_semantics_witness :
    demoHub.WF ∧
    ((∀ w ∈ demoHub.publish "cmd-1" "p", w.2 = sseFrame "p") ∧
    (∀ h : Nat,
      (demoHub.publish "cmd-1" "p").count (h, sseFrame "p") =
        if h ∈ (hubLookup demoHub "cmd-1").getD [] then 1 else 0) ∧
    (hubLookup demoHub "cmd-1" = none → demoHub.publish "cmd-1" "p" = []) ∧
    (∀ h : Nat, ∀ q d : String,
      (h, d) ∉ (demoHub.unsub "cmd-1" h).publish "cmd-1" q) ∧
    (∀ h : Nat, hubLookup demoHub "cmd-1" = some [h] →
      hubLookup (demoHub.unsub "cmd-1" h) "cmd-1" = none)) :=
  ⟨by decide, hub_publish_semantics demoHub "cmd-1" "p" (by decide)⟩

/-- Claim C10: the store-level claim procedure is a total function of its
parameters — it never rejects out-of-range input.  The effective batch limit
it uses is max(1, min(maxClaims, 10)) with null treated as 1, bounded in
1..10 and equal to in-range inputs; the effective lease is
max(15, min(leaseSeconds, 300)) with null treated as 60, bounded in 15..300
and equal to in-range inputs; consequently any call, whatever its
parameters, returns at most 10 rows and stamps every returned row's lease
to now plus the clamped lease. -/
theorem claim_parameters_clamped (m s : Option Int) (k : Int)
    (cmds : List Command) (a : Nat) (t : Int) :
    (v_limit m = max 1 (min (m.getD 1) 10) ∧
      v_lease s = max 15 (min (s.getD 60) 300)) ∧
    (1 ≤ v_limit m ∧ v_limit m ≤ 10 ∧ 15 ≤ v_lease s ∧ v_lease s ≤ 300) ∧
    (v_limit none = 1 ∧ v_lease none = 60) ∧
    (1 ≤ k → k ≤ 10 → v_limit (some k) = k) ∧
    (15 ≤ k → k ≤ 300 → v_lease (some k) = k) ∧
    ((claim_agent_commands cmds a m s t).2.length ≤ 10) ∧
    (∀ r ∈ (claim_agent_commands cmds a m s t).2,
      r.lease_expires_at = some (t + v_lease s)) := by
  refine ⟨⟨rfl, rfl⟩, ?_, ⟨rfl, rfl⟩, ?_, ?_, ?_, ?_⟩
  · unfold v_limit v_lease
    refine ⟨le_max_left 1 _, max_le (by norm_num) (min_le_right _ 10),
      le_max_left 15 _, max_le (by norm_num) (min_le_right _ 300)⟩
  · intro h1 h2
    unfold v_limit
    simp only [Option.getD_some]
    rw [min_eq_left h2, max_eq_right h1]
  · intro h1 h2
    unfold v_lease
    simp only [Option.getD_some]
    rw [min_eq_left h2, max_eq_right h1]
  · unfold claim_agent_commands
    simp only [List.length_map]
    calc (((cmds.filter (claimCandidate t a)).insertionSort
            claimOrderRel).take (v_limit m).toNat).length
        ≤ (v_limit m).toNat := (List.length_take _ _).trans_le (min_le_left _ _)
      _ ≤ 10 := by
          rw [Int.toNat_le]
          exact max_le (by norm_num) (min_le_right _ 10)
  · intro r hr
    unfold claim_agent_commands at hr
    simp only [List.mem_map] at hr
    rcases hr with ⟨c, -, rfl⟩
    rfl

/-- Witness for C10 at out-of-range concrete parameters (maxClaims 99,
leaseSeconds 7). -/
theorem claim_parameters_clamped_witness :
    ((v_limit (some 99) = max 1 (min ((some (99 : Int)).getD 1) 10) ∧
      v_lease (some 7) = max 15 (min ((some (7 : Int)).getD 60) 300)) ∧
    (1 ≤ v_limit (some 99) ∧ v_limit (some 99) ≤ 10 ∧
      15 ≤ v_lease (some 7) ∧ v_lease (some 7) ≤ 300) ∧
    (v_limit none = 1 ∧ v_lease none = 60) ∧
    (1 ≤ (5 : Int) → (5 : Int) ≤ 10 → v_limit (some 5) = 5) ∧
    (15 ≤ (5 : Int) → (5 : Int) ≤ 300 → v_lease (some 5) = 5) ∧
    ((claim_agent_commands [demoQueued] 7 (some 99) (some 7) 0).2.length ≤ 10) ∧
    (∀ r ∈ (claim_agent_commands [demoQueued] 7 (some 99) (some 7) 0).2,
      r.lease_expires_at = some (0 + v_lease (some 7)))) :=
  claim_parameters_clamped (some 99) (some 7) 5 [demoQueued] 7 0

/-- Decomposition of the candidate predicate into its three conjuncts. -/
theorem claimCandidate_iff (v_now : Int) (a : Nat) (c : Command) :
    claimCandidate v_now a c = true ↔
      c.agent_id = a ∧ c.status = .queued ∧
        (c.lease_expires_at = none ∨
          ∃ u, c.lease_expires_at = some u ∧ u ≤ v_now) := by
  unfold claimCandidate
  cases hle : c.lease_expires_at with
  | none => simp [hle]
  | some u => simp [hle, and_assoc]

/-- The claim procedure on a one-command table whose command is claimable:
the command is claimed and returned. -/
theorem claim_singleton (c : Command) (a : Nat) (m l : Option Int) (t : Int)
    (hc : claimCandidate t a c = true) :
    claim_agent_commands [c] a m l t =
      ([applyClaim t (v_lease l) a c], [applyClaim t (v_lease l) a c]) := by
  have h0 : (1 : Int) ≤ v_limit m := le_max_left _ _
  have h1 : 1 ≤ (v_limit m).toNat := by omega
  have hfil : [c].filter (claimCandidate t a) = [c] := by simp [hc]
  unfold claim_agent_commands
  simp only [hfil, List.insertionSort, List.orderedInsert_nil]
  rw [List.take_of_length_le (by simpa using h1)]
  simp [applyClaim]

/-- The success path of release: when the command exists, is owned and
claimed by the caller, and is dispatching/executing, release answers ok and
rewrites the command with the release patch. -/
theorem postRelease_success {db : Store} {a id : Nat} {c : Command}
    (reason : Option String)
    (hget : getCmd db.commands id = some c)
    (hreason : (reason.getD "").length ≤ 500)
    (hown : c.agent_id = a) (hclaimed : c.claimed_by_agent_id = some a)
    (hst : c.status = .dispatching ∨ c.status = .executing) :
    (postRelease db a id reason).2 = .ok ∧
    (postRelease db a id reason).1.commands =
      updateCommands db.commands id (releasePatch reason) := by
  unfold postRelease
  rw [if_neg (not_not_intro hreason)]
  simp only [hget]
  rw [if_neg (not_not_intro hown), if_neg (not_not_intro hclaimed),
    if_neg (not_not_intro hst)]
  exact ⟨rfl, rfl⟩

/-- Claim C8: on a one-command store whose command is claimable by agent a
at time t1, the claim call returns exactly that command id; a release by a
then succeeds, resetting the command to queued with claimed_by_agent_id,
claimed_at and lease_expires_at cleared and last_claim_error set to the
supplied reason; and a further claim call by a (any time, any parameters)
returns the same command id again. -/
theorem release_round_trip (c : Command) (a : Nat) (reason : Option String)
    (m1 l1 m2 l2 : Option Int) (t1 t3 : Int)
    (res : List CommandResult) (ev : List Event)
    (hcand : claimCandidate t1 a c = true)
    (hreason : (reason.getD "").length ≤ 500) :
    (claimRoute ⟨[c], res, ev⟩ a m1 l1 t1).2.map (fun r => r.id) = [c.id] ∧
    (postRelease (claimRoute ⟨[c], res, ev⟩ a m1 l1 t1).1 a c.id reason).2 = .ok ∧
    getCmd (postRelease (claimRoute ⟨[c], res, ev⟩ a m1 l1 t1).1 a c.id
        reason).1.commands c.id =
      some (releasePatch reason (applyClaim t1 (v_lease l1) a c)) ∧
    (releasePatch reason (applyClaim t1 (v_lease l1) a c)).status = .queued ∧
    (releasePatch reason (applyClaim t1 (v_lease l1) a c)).claimed_by_agent_id = none ∧
    (releasePatch reason (applyClaim t1 (v_lease l1) a c)).claimed_at = none ∧
    (releasePatch reason (applyClaim t1 (v_lease l1) a c)).lease_expires_at = none ∧
    (releasePatch reason (applyClaim t1 (v_lease l1) a c)).last_claim_error = reason ∧
    (claimRoute (postRelease (claimRoute ⟨[c], res, ev⟩ a m1 l1 t1).1 a c.id
        reason).1 a m2 l2 t3).2.map (fun r => r.id) = [c.id] := by
  have hag : c.agent_id = a := ((claimCandidate_iff t1 a c).mp hcand).1
  have hpre := claim_singleton c a m1 l1 t1 hcand
  have hs1 : (claimRoute ⟨[c], res, ev⟩ a m1 l1 t1).1.commands =
      [applyClaim t1 (v_lease l1) a c] := by
    unfold claimRoute
    rw [hpre]
  have hs1r : (claimRoute ⟨[c], res, ev⟩ a m1 l1 t1).2 =
      [applyClaim t1 (v_lease l1) a c] := by
    unfold claimRoute
    rw [hpre]
  have hget1 : getCmd (claimRoute ⟨[c], res, ev⟩ a m1 l1 t1).1.commands c.id =
      some (applyClaim t1 (v_lease l1) a c) := by
    rw [hs1]
    simp [getCmd, applyClaim]
  have hrel := postRelease_success reason hget1 hreason
    (show (applyClaim t1 (v_lease l1) a c).agent_id = a from hag)
    (show (applyClaim t1 (v_lease l1) a c).claimed_by_agent_id = some a from rfl)
    (Or.inl rfl)
  have hcmds2 : (postRelease (claimRoute ⟨[c], res, ev⟩ a m1 l1 t1).1 a c.id
      reason).1.commands =
      [releasePatch reason (applyClaim t1 (v_lease l1) a c)] := by
    rw [hrel.2, hs1]
    simp [updateCommands, applyClaim]
  have hget2 : getCmd (postRelease (claimRoute ⟨[c], res, ev⟩ a m1 l1 t1).1 a c.id
      reason).1.commands c.id =
      some (releasePatch reason (applyClaim t1 (v_lease l1) a c)) := by
    rw [hcmds2]
    simp [getCmd, releasePatch, applyClaim]
  have hcand2 : claimCandidate t3 a
      (releasePatch reason (applyClaim t1 (v_lease l1) a c)) = true := by
    simp [claimCandidate, releasePatch, applyClaim, hag]
  refine ⟨?_, hrel.1, hget2, rfl, rfl, rfl, rfl, rfl, ?_⟩
  · rw [hs1r]
    rfl
  · have hroute2 : ∀ db : Store,
        (claimRoute db a m2 l2 t3).2 =
          (claim_agent_commands db.commands a m2 l2 t3).2 :=
      fun db => rfl
    rw [hroute2, hcmds2, claim_singleton _ a m2 l2 t3 hcand2]
    rfl

/-- Witness for C8 at a concrete store: the queued demo command for agent 7,
claimed at t=0, released with reason r, reclaimed at t=5. -/
theorem release_round_trip_witness :
    (claimRoute ⟨[demoQueued], [], []⟩ 7 none none 0).2.map (fun r => r.id) = [demoQueued.id] ∧
    (postRelease (claimRoute ⟨[demoQueued], [], []⟩ 7 none none 0).1 7 demoQueued.id
      (some "r")).2 = .ok ∧
    getCmd (postRelease (claimRoute ⟨[demoQueued], [], []⟩ 7 none none 0).1 7 demoQueued.id
        (some "r")).1.commands demoQueued.id =
      some (releasePatch (some "r") (applyClaim 0 (v_lease none) 7 demoQueued)) ∧
    (releasePatch (some "r") (applyClaim 0 (v_lease none) 7 demoQueued)).status = .queued ∧
    (releasePatch (some "r") (applyClaim 0 (v_lease none) 7 demoQueued)).claimed_by_agent_id = none ∧
    (releasePatch (some "r") (applyClaim 0 (v_lease none) 7 demoQueued)).claimed_at = none ∧
    (releasePatch (some "r") (applyClaim 0 (v_lease none) 7 demoQueued)).lease_expires_at = none ∧
    (releasePatch (some "r") (applyClaim 0 (v_lease none) 7 demoQueued)).last_claim_error = some "r" ∧
    (claimRoute (postRelease (claimRoute ⟨[demoQueued], [], []⟩ 7 none none 0).1 7 demoQueued.id
        (some "r")).1 7 none none 5).2.map (fun r => r.id) = [demoQueued.id] :=
  release_round_trip demoQueued 7 (some "r") none none none none 0 5 [] []
    (by decide) (by decide)

/-- The candidate batch selected by `claim_agent_commands`: claimable rows,
ordered by priority descending then creation ascending, first `v_limit`. -/
def claimCandidates (cmds : List Command) (a : Nat) (m : Option Int)
    (t : Int) : List Command :=
  ((cmds.filter (claimCandidate t a)).insertionSort claimOrderRel).take
    (v_limit m).toNat

/-- `claim_agent_commands` unfolded through `claimCandidates`. -/
theorem claim_agent_commands_eq (cmds : List Command) (a : Nat)
    (m l : Option Int) (t : Int) :
    claim_agent_commands cmds a m l t =
      (cmds.map (fun c =>
        if ((claimCandidates cmds a m t).map (fun x => x.id)).contains c.id
        then applyClaim t (v_lease l) a c else c),
       (claimCandidates cmds a m t).map (applyClaim t (v_lease l) a)) := rfl

/-- Every selected candidate is a claimable row of the table. -/
theorem mem_claimCandidates {cmds : List Command} {a : Nat} {m : Option Int}
    {t : Int} {c : Command} (hc : c ∈ claimCandidates cmds a m t) :
    c ∈ cmds ∧ claimCandidate t a c = true := by
  have h1 : c ∈ (cmds.filter (claimCandidate t a)).insertionSort claimOrderRel :=
    List.take_subset _ _ hc
  have h2 : c ∈ cmds.filter (claimCandidate t a) :=
    (List.mem_insertionSort claimOrderRel).mp h1
  exact ⟨List.mem_of_mem_filter h2, List.of_mem_filter h2⟩

/-- Distinct table ids give distinct candidate ids. -/
theorem claimCandidates_nodup {cmds : List Command} {a : Nat} {m : Option Int}
    {t : Int} (hnd : (cmds.map (fun c => c.id)).Nodup) :
    ((claimCandidates cmds a m t).map (fun c => c.id)).Nodup := by
  have hsub : (cmds.filter (claimCandidate t a)).Sublist cmds :=
    List.filter_sublist cmds
  have h1 : ((cmds.filter (claimCandidate t a)).map (fun c => c.id)).Nodup :=
    (hsub.map (fun c => c.id)).nodup hnd
  have hperm : ((cmds.filter (claimCandidate t a)).insertionSort
      claimOrderRel).Perm (cmds.filter (claimCandidate t a)) :=
    List.perm_insertionSort claimOrderRel _
  have h2 : (((cmds.filter (claimCandidate t a)).insertionSort
      claimOrderRel).map (fun c => c.id)).Nodup :=
    ((List.Perm.map (fun c : Command => c.id) hperm).nodup_iff).mpr h1
  have htake : (claimCandidates cmds a m t).Sublist
      ((cmds.filter (claimCandidate t a)).insertionSort claimOrderRel) :=
    List.take_sublist _ _
  exact (htake.map (fun c => c.id)).nodup h2

/-- The candidate batch respects the claim ordering. -/
theorem claimCandidates_pairwise (cmds : List Command) (a : Nat) (m : Option Int)
    (t : Int) : (claimCandidates cmds a m t).Pairwise claimOrderRel :=
  (List.sorted_insertionSort claimOrderRel _).sublist (List.take_sublist _ _)

/-- A claimable row that was not selected is dominated (in the claim order)
by every selected candidate. -/
theorem claimCandidates_top {cmds : List Command} {a : Nat} {m : Option Int}
    {t : Int} {c : Command} (hc : c ∈ cmds) (hcand : claimCandidate t a c = true)
    (hout : c.id ∉ (claimCandidates cmds a m t).map (fun x => x.id)) :
    ∀ r ∈ claimCandidates cmds a m t, claimOrderRel r c := by
  intro r hr
  have hcs : c ∈ (cmds.filter (claimCandidate t a)).insertionSort claimOrderRel :=
    (List.mem_insertionSort claimOrderRel).mpr (List.mem_filter.mpr ⟨hc, hcand⟩)
  have hnotin : c ∉ claimCandidates cmds a m t := by
    intro hmem
    exact hout (List.mem_map.mpr ⟨c, hmem, rfl⟩)
  have hdrop : c ∈ ((cmds.filter (claimCandidate t a)).insertionSort
      claimOrderRel).drop (v_limit m).toNat := by
    rcases (List.mem_append.mp
      (by rw [List.take_append_drop]; exact hcs : c ∈
        ((cmds.filter (claimCandidate t a)).insertionSort claimOrderRel).take
          (v_limit m).toNat ++
        ((cmds.filter (claimCandidate t a)).insertionSort claimOrderRel).drop
          (v_limit m).toNat)) with h | h
    · exact absurd h hnotin
    · exact h
  exact (List.sorted_insertionSort claimOrderRel _).rel_of_mem_take_of_mem_drop hr hdrop

/-- Fetching from a mapped table with an id-preserving function fetches the
mapped row. -/
theorem getCmd_map (f : Command → Command) (hid : ∀ c, (f c).id = c.id)
    (cmds : List Command) (i : Nat) :
    getCmd (cmds.map f) i = (getCmd cmds i).map f := by
  induction cmds with
  | nil => rfl
  | cons c cs ih =>
    by_cases h : c.id = i
    · rw [getCmd, List.map_cons, List.find?_cons_of_pos _ (by simp [hid c, h]),
        getCmd, List.find?_cons_of_pos _ (by simp [h])]
      rfl
    · rw [getCmd, List.map_cons, List.find?_cons_of_neg _ (by simp [hid c, h]),
        getCmd, List.find?_cons_of_neg _ (by simp [h])]
      exact ih

/-- Bool-level membership for id lists. -/
theorem contains_eq_true_iff_mem (l : List Nat) (x : Nat) :
    l.contains x = true ↔ x ∈ l := by
  simp

/-- The claim update preserves ids, so the per-row update function of the
procedure does too. -/
theorem claim_rowFun_id (cands : List Nat) (t le : Int) (a : Nat)
    (c : Command) :
    ((fun c => if cands.contains c.id then applyClaim t le a c else c) c).id =
      c.id := by
  show (if cands.contains c.id = true then applyClaim t le a c else c).id = c.id
  by_cases h : cands.contains c.id = true
  · rw [if_pos h]
    rfl
  · rw [if_neg h]

/-- Returned rows carry the candidate ids. -/
theorem claim_returned_ids (cmds : List Command) (a : Nat) (m l : Option Int)
    (t : Int) :
    (claim_agent_commands cmds a m l t).2.map (fun x => x.id) =
      (claimCandidates cmds a m t).map (fun c => c.id) := by
  rw [claim_agent_commands_eq, List.map_map]
  rfl

/-- Fetching a member of a table with distinct ids by its id returns it. -/
theorem getCmd_of_mem_nodup {cmds : List Command} {c : Command}
    (hnd : (cmds.map (fun c => c.id)).Nodup) (hc : c ∈ cmds) :
    getCmd cmds c.id = some c := by
  induction cmds with
  | nil => cases hc
  | cons d ds ih =>
    rcases List.mem_cons.mp hc with rfl | hc2
    · rw [getCmd, List.find?_cons_of_pos _ (by simp)]
    · have hnd2 : d.id ∉ ds.map (fun c => c.id) ∧
          (ds.map (fun c => c.id)).Nodup := by
        rw [List.map_cons] at hnd
        exact List.nodup_cons.mp hnd
      have hd : ¬(d.id = c.id) := by
        intro he
        exact hnd2.1 (he ▸ List.mem_map.mpr ⟨c, hc2, rfl⟩)
      rw [getCmd, List.find?_cons_of_neg _ (by simp [hd])]
      exact ih hnd2.2 hc2

/-- After a claim, every returned row is what the table now stores under its
id. -/
theorem claim_getCmd_returned {cmds : List Command} {a : Nat} {m l : Option Int}
    {t : Int} {x : Command}
    (hnd : (cmds.map (fun c => c.id)).Nodup)
    (hx : x ∈ (claim_agent_commands cmds a m l t).2) :
    getCmd (claim_agent_commands cmds a m l t).1 x.id = some x := by
  rw [claim_agent_commands_eq] at hx ⊢
  simp only at hx ⊢
  rcases List.mem_map.mp hx with ⟨c0, hc0, rfl⟩
  have hc0cmds := (mem_claimCandidates hc0).1
  have hgc : getCmd cmds (applyClaim t (v_lease l) a c0).id = some c0 := by
    have : (applyClaim t (v_lease l) a c0).id = c0.id := rfl
    rw [this]
    exact getCmd_of_mem_nodup hnd hc0cmds
  rw [getCmd_map _ (claim_rowFun_id _ t (v_lease l) a), hgc]
  have hin : ((claimCandidates cmds a m t).map (fun x => x.id)).contains c0.id =
      true :=
    (contains_eq_true_iff_mem _ _).mpr (List.mem_map.mpr ⟨c0, hc0, rfl⟩)
  simp only [Option.map_some']
  rw [if_pos hin]

/-- After a claim, ids outside the returned batch read exactly as before. -/
theorem claim_getCmd_untouched {cmds : List Command} {a : Nat} {m l : Option Int}
    {t : Int} {i : Nat}
    (hi : i ∉ (claimCandidates cmds a m t).map (fun c => c.id)) :
    getCmd (claim_agent_commands cmds a m l t).1 i = getCmd cmds i := by
  rw [claim_agent_commands_eq]
  simp only
  rw [getCmd_map _ (claim_rowFun_id _ t (v_lease l) a)]
  cases hg : getCmd cmds i with
  | none => rfl
  | some c1 =>
    have hid : c1.id = i := by
      have := List.find?_some hg
      simpa using this
    have hnc : ¬(((claimCandidates cmds a m t).map
        (fun c => c.id)).contains c1.id = true) := by
      rw [hid]
      intro hcontains
      exact hi ((contains_eq_true_iff_mem _ _).mp hcontains)
    simp only [Option.map_some']
    rw [if_neg hnc]

/-- Claim C4: a claim call with in-range parameters on a table with distinct
ids selects up to maxClaims commands that were queued for the calling agent
with null-or-expired lease; every returned row is the selected command with
status dispatching, claimed_by_agent_id the caller, claimed_at now,
lease_expires_at now plus leaseSeconds and attempt_count incremented by one;
the batch is ordered by priority descending then creation ascending and
dominates every unselected claimable row; in the resulting table the
selected rows read back as returned and every other id is untouched. -/
theorem claim_call_spec (cmds : List Command) (a : Nat) (m l t : Int)
    (hnd : (cmds.map (fun c => c.id)).Nodup)
    (hm1 : 1 ≤ m) (hm2 : m ≤ 10) (hl1 : 15 ≤ l) (hl2 : l ≤ 300) :
    (claim_agent_commands cmds a (some m) (some l) t).2.length ≤ m.toNat ∧
    (∀ x ∈ (claim_agent_commands cmds a (some m) (some l) t).2,
      ∃ c, c ∈ cmds ∧ c.id = x.id ∧ c.agent_id = a ∧ c.status = .queued ∧
        (c.lease_expires_at = none ∨ ∃ u, c.lease_expires_at = some u ∧ u ≤ t) ∧
        x = applyClaim t l a c ∧
        x.status = .dispatching ∧ x.claimed_by_agent_id = some a ∧
        x.claimed_at = some t ∧ x.lease_expires_at = some (t + l) ∧
        x.attempt_count = c.attempt_count + 1) ∧
    (claim_agent_commands cmds a (some m) (some l) t).2.Pairwise claimOrderRel ∧
    (∀ x ∈ (claim_agent_commands cmds a (some m) (some l) t).2, ∀ c ∈ cmds,
      claimCandidate t a c = true →
      c.id ∉ (claim_agent_commands cmds a (some m) (some l) t).2.map
        (fun y => y.id) →
      claimOrderRel x c) ∧
    (∀ x ∈ (claim_agent_commands cmds a (some m) (some l) t).2,
      getCmd (claim_agent_commands cmds a (some m) (some l) t).1 x.id = some x) ∧
    (∀ i, i ∉ (claim_agent_commands cmds a (some m) (some l) t).2.map
        (fun y => y.id) →
      getCmd (claim_agent_commands cmds a (some m) (some l) t).1 i =
        getCmd cmds i) := by
  have hvm : v_limit (some m) = m := by
    unfold v_limit
    simp only [Option.getD_some]
    rw [min_eq_left hm2, max_eq_right hm1]
  have hvl : v_lease (some l) = l := by
    unfold v_lease
    simp only [Option.getD_some]
    rw [min_eq_left hl2, max_eq_right hl1]
  refine ⟨?_, ?_, ?_, ?_, ?_, ?_⟩
  · rw [claim_agent_commands_eq]
    simp only [List.length_map]
    unfold claimCandidates
    calc (((cmds.filter (claimCandidate t a)).insertionSort
          claimOrderRel).take (v_limit (some m)).toNat).length
        ≤ (v_limit (some m)).toNat :=
          (List.length_take _ _).trans_le (min_le_left _ _)
      _ = m.toNat := by rw [hvm]
  · intro x hx
    rw [claim_agent_commands_eq] at hx
    rcases List.mem_map.mp hx with ⟨c0, hc0, rfl⟩
    rcases mem_claimCandidates hc0 with ⟨hmem, hcand⟩
    rcases (claimCandidate_iff t a c0).mp hcand with ⟨hag, hst, hle⟩
    refine ⟨c0, hmem, rfl, hag, hst, hle, by rw [hvl], rfl, rfl, rfl, ?_, rfl⟩
    rw [hvl]
    rfl
  · rw [claim_agent_commands_eq]
    simp only
    rw [List.pairwise_map]
    exact (claimCandidates_pairwise cmds a (some m) t).imp (fun h => h)
  · intro x hx c hc hcand hnotin
    rw [claim_returned_ids] at hnotin
    rw [claim_agent_commands_eq] at hx
    rcases List.mem_map.mp hx with ⟨c0, hc0, rfl⟩
    exact claimCandidates_top hc hcand hnotin c0 hc0
  · intro x hx
    exact claim_getCmd_returned hnd hx
  · intro i hi
    rw [claim_returned_ids] at hi
    exact claim_getCmd_untouched hi

/-- Witness for C4 at a concrete table: the queued demo command for agent 7,
claimed with maxClaims 2, leaseSeconds 30 at t=0. -/
theorem claim_call_spec_witness :
    (claim_agent_commands [demoQueued] 7 (some 2) (some 30) 0).2.length ≤
      (2 : Int).toNat ∧
    (∀ x ∈ (claim_agent_commands [demoQueued] 7 (some 2) (some 30) 0).2,
      ∃ c, c ∈ [demoQueued] ∧ c.id = x.id ∧ c.agent_id = 7 ∧
        c.status = .queued ∧
        (c.lease_expires_at = none ∨
          ∃ u, c.lease_expires_at = some u ∧ u ≤ 0) ∧
        x = applyClaim 0 30 7 c ∧
        x.status = .dispatching ∧ x.claimed_by_agent_id = some 7 ∧
        x.claimed_at = some 0 ∧ x.lease_expires_at = some (0 + 30) ∧
        x.attempt_count = c.attempt_count + 1) ∧
    (claim_agent_commands [demoQueued] 7 (some 2) (some 30) 0).2.Pairwise
      claimOrderRel ∧
    (∀ x ∈ (claim_agent_commands [demoQueued] 7 (some 2) (some 30) 0).2,
      ∀ c ∈ [demoQueued], claimCandidate 0 7 c = true →
      c.id ∉ (claim_agent_commands [demoQueued] 7 (some 2) (some 30) 0).2.map
        (fun y => y.id) →
      claimOrderRel x c) ∧
    (∀ x ∈ (claim_agent_commands [demoQueued] 7 (some 2) (some 30) 0).2,
      getCmd (claim_agent_commands [demoQueued] 7 (some 2) (some 30) 0).1 x.id =
        some x) ∧
    (∀ i, i ∉ (claim_agent_commands [demoQueued] 7 (some 2) (some 30) 0).2.map
        (fun y => y.id) →
      getCmd (claim_agent_commands [demoQueued] 7 (some 2) (some 30) 0).1 i =
        getCmd [demoQueued] i) :=
  claim_call_spec [demoQueued] 7 2 30 0 (by decide) (by decide) (by decide)
    (by decide) (by decide)

/-- A claim call does not change the set (or order) of ids in the table. -/
theorem claim_ids_preserved (cmds : List Command) (a : Nat) (m l : Option Int)
    (t : Int) :
    (claim_agent_commands cmds a m l t).1.map (fun c => c.id) =
      cmds.map (fun c => c.id) := by
  rw [claim_agent_commands_eq]
  simp only
  rw [List.map_map]
  apply List.map_congr_left
  intro c hc
  exact claim_rowFun_id ((claimCandidates cmds a m t).map
    (fun x : Command => x.id)) t (v_lease l) a c

/-- Every returned row of a claim is dispatching. -/
theorem claim_returned_dispatching {cmds : List Command} {a : Nat}
    {m l : Option Int} {t : Int} {x : Command}
    (hx : x ∈ (claim_agent_commands cmds a m l t).2) :
    x.status = .dispatching := by
  rw [claim_agent_commands_eq] at hx
  rcases List.mem_map.mp hx with ⟨c0, -, rfl⟩
  rfl

/-- Batch size of one claim, as an integer, is at most maxClaims whenever
maxClaims is at least one. -/
theorem claim_batch_le {cmds : List Command} {a : Nat} {mm ll t : Int}
    (hm : 1 ≤ mm) :
    ((claim_agent_commands cmds a (some mm) (some ll) t).2.length : Int) ≤ mm := by
  have h1 : (claim_agent_commands cmds a (some mm) (some ll) t).2.length ≤
      (v_limit (some mm)).toNat := by
    rw [claim_agent_commands_eq]
    simp only [List.length_map]
    unfold claimCandidates
    exact (List.length_take _ _).trans_le (min_le_left _ _)
  have h2 : v_limit (some mm) ≤ mm := by
    unfold v_limit
    simp only [Option.getD_some]
    exact max_le hm (min_le_left mm 10)
  have h3 : (0 : Int) ≤ v_limit (some mm) := le_trans (by norm_num) (le_max_left _ _)
  omega

/-- Induction core for claim exclusivity: over any sequence of claim calls
by one agent, the claimed-id batches are globally duplicate-free, every
claimed id was queued for the agent in the starting table, and the total
count is bounded by the sum of the maxClaims. -/
theorem runClaims_invariant (a : Nat) (calls : List ClaimCall) :
    ∀ cmds : List Command, (cmds.map (fun c => c.id)).Nodup →
    (∀ cl ∈ calls, 1 ≤ cl.maxClaims) →
    (runClaims a calls cmds).2.flatten.Nodup ∧
    (∀ i ∈ (runClaims a calls cmds).2.flatten,
      ∃ c, getCmd cmds i = some c ∧ c.agent_id = a ∧ c.status = .queued) ∧
    (((runClaims a calls cmds).2.flatten.length : Int) ≤
      (calls.map (fun cl => cl.maxClaims)).sum) := by
  induction calls with
  | nil =>
    intro cmds hnd hm
    refine ⟨List.nodup_nil, ?_, ?_⟩
    · intro i hi
      cases hi
    · simp [runClaims]
  | cons cl rest ih =>
    intro cmds hnd hm
    have hm0 : 1 ≤ cl.maxClaims := hm cl (List.mem_cons_self cl rest)
    have hmrest : ∀ c2 ∈ rest, 1 ≤ c2.maxClaims :=
      fun c2 h2 => hm c2 (List.mem_cons_of_mem cl h2)
    have hstep : runClaims a (cl :: rest) cmds =
        ((runClaims a rest (claim_agent_commands cmds a (some cl.maxClaims)
            (some cl.leaseSeconds) cl.now).1).1,
         (claim_agent_commands cmds a (some cl.maxClaims)
            (some cl.leaseSeconds) cl.now).2.map (fun c => c.id) ::
         (runClaims a rest (claim_agent_commands cmds a (some cl.maxClaims)
            (some cl.leaseSeconds) cl.now).1).2) := rfl
    have hnd' : ((claim_agent_commands cmds a (some cl.maxClaims)
        (some cl.leaseSeconds) cl.now).1.map (fun c => c.id)).Nodup := by
      rw [claim_ids_preserved]
      exact hnd
    obtain ⟨ihnd, ihsrc, ihsum⟩ := ih (claim_agent_commands cmds a
      (some cl.maxClaims) (some cl.leaseSeconds) cl.now).1 hnd' hmrest
    have hids0nd : ((claim_agent_commands cmds a (some cl.maxClaims)
        (some cl.leaseSeconds) cl.now).2.map (fun c => c.id)).Nodup := by
      rw [claim_returned_ids]
      exact claimCandidates_nodup hnd
    have hdisj : ∀ i, i ∈ (claim_agent_commands cmds a (some cl.maxClaims)
        (some cl.leaseSeconds) cl.now).2.map (fun c => c.id) →
        i ∈ (runClaims a rest (claim_agent_commands cmds a (some cl.maxClaims)
          (some cl.leaseSeconds) cl.now).1).2.flatten → False := by
      intro i hi0 hiT
      rcases List.mem_map.mp hi0 with ⟨x, hxmem, rfl⟩
      rcases ihsrc x.id hiT with ⟨c', hget', -, hst'⟩
      have hgetx := claim_getCmd_returned hnd hxmem
      rw [hgetx] at hget'
      cases hget'
      rw [claim_returned_dispatching hxmem] at hst'
      cases hst'
    rw [hstep]
    simp only [List.flatten_cons]
    refine ⟨?_, ?_, ?_⟩
    · rw [List.nodup_append]
      exact ⟨hids0nd, ihnd, fun i hi0 hiT => hdisj i hi0 hiT⟩
    · intro i hi
      rcases List.mem_append.mp hi with hi0 | hiT
      · rcases List.mem_map.mp hi0 with ⟨x, hxmem, rfl⟩
        rw [claim_agent_commands_eq] at hxmem
        rcases List.mem_map.mp hxmem with ⟨c0, hc0, rfl⟩
        rcases mem_claimCandidates hc0 with ⟨hc0mem, hc0cand⟩
        rcases (claimCandidate_iff cl.now a c0).mp hc0cand with ⟨hag, hst, -⟩
        refine ⟨c0, ?_, hag, hst⟩
        have : (applyClaim cl.now (v_lease (some cl.leaseSeconds)) a c0).id =
            c0.id := rfl
        rw [this]
        exact getCmd_of_mem_nodup hnd hc0mem
      · rcases ihsrc i hiT with ⟨c', hget', hag', hst'⟩
        have hnotin : i ∉ (claimCandidates cmds a (some cl.maxClaims)
            cl.now).map (fun c => c.id) := by
          intro hmem
          apply hdisj i ?_ hiT
          rw [claim_returned_ids]
          exact hmem
        rw [claim_getCmd_untouched hnotin] at hget'
        exact ⟨c', hget', hag', hst'⟩
    · rw [List.length_append, List.map_cons, List.sum_cons]
      have h1 : (((claim_agent_commands cmds a (some cl.maxClaims)
          (some cl.leaseSeconds) cl.now).2.map (fun c => c.id)).length : Int) ≤
          cl.maxClaims := by
        rw [List.length_map]
        exact claim_batch_le hm0
      push_cast
      push_cast at h1 ihsum
      linarith

/-- Claim C5: over any sequence of claim calls by one agent, each executing
as one atomic step, no command id appears in the batches of two different
calls (the batches are pairwise disjoint and their concatenation is
duplicate-free), and the total number of claimed ids is at most the minimum
of the number of commands queued for the agent at the start and the sum of
the calls' maxClaims (each call requesting at least one). -/
theorem claim_exclusivity (cmds : List Command) (a : Nat)
    (calls : List ClaimCall)
    (hnd : (cmds.map (fun c => c.id)).Nodup)
    (hm : ∀ cl ∈ calls, 1 ≤ cl.maxClaims) :
    (runClaims a calls cmds).2.flatten.Nodup ∧
    (runClaims a calls cmds).2.Pairwise List.Disjoint ∧
    (((runClaims a calls cmds).2.flatten.length : Int) ≤
      min ((cmds.filter (fun c => decide (c.agent_id = a) &&
          decide (c.status = CommandStatus.queued))).length : Int)
        ((calls.map (fun cl => cl.maxClaims)).sum)) := by
  obtain ⟨hjnd, hsrc, hsum⟩ := runClaims_invariant a calls cmds hnd hm
  refine ⟨hjnd, (List.nodup_flatten.mp hjnd).2, le_min ?_ hsum⟩
  have hsubset : (runClaims a calls cmds).2.flatten ⊆
      (cmds.filter (fun c => decide (c.agent_id = a) &&
        decide (c.status = CommandStatus.queued))).map (fun c => c.id) := by
    intro i hi
    rcases hsrc i hi with ⟨c, hget, hag, hst⟩
    have hcmem : c ∈ cmds := List.mem_of_find?_eq_some hget
    have hcid : c.id = i := by simpa using List.find?_some hget
    exact hcid ▸ List.mem_map.mpr
      ⟨c, List.mem_filter.mpr ⟨hcmem, by simp [hag, hst]⟩, rfl⟩
  have hlen := (hjnd.subperm hsubset).length_le
  rw [List.length_map] at hlen
  exact_mod_cast hlen

/-- Witness for C5 at a concrete run: one queued command for agent 7 and two
consecutive claim calls. -/
theorem claim_exclusivity_witness :
    (runClaims 7 [⟨1, 30, 0⟩, ⟨2, 30, 5⟩] [demoQueued]).2.flatten.Nodup ∧
    (runClaims 7 [⟨1, 30, 0⟩, ⟨2, 30, 5⟩] [demoQueued]).2.Pairwise
      List.Disjoint ∧
    (((runClaims 7 [⟨1, 30, 0⟩, ⟨2, 30, 5⟩] [demoQueued]).2.flatten.length :
        Int) ≤
      min (([demoQueued].filter (fun c => decide (c.agent_id = 7) &&
          decide (c.status = CommandStatus.queued))).length : Int)
        (([⟨1, 30, 0⟩, ⟨2, 30, 5⟩].map
          (fun cl : ClaimCall => cl.maxClaims)).sum)) :=
  claim_exclusivity [demoQueued] 7 [⟨1, 30, 0⟩, ⟨2, 30, 5⟩] (by decide)
    (by decide)
